import Mathlib

/-!
# Verification of the pppd MD4 digest engine (`ppp-md4.c`)

Shallow embedding of the native (non-OpenSSL) MD4 implementation in
`src/pppd/ppp-md4.c`: the Rivest reference engine (`MD4Init`, `MDblock`,
`MD4Update`, `MD4Final`) and the pppd adapter layer (`md4_update`,
`md4_final`).

Modelling conventions:
* machine `unsigned int` arithmetic is `Nat` with explicit `% 4294967296`
  (= 2^32) where the C code wraps;
* byte buffers reached through pointers (`unsigned char *`) are functions
  `Nat → Nat` (the pointer arithmetic `data += 64` becomes an index shift);
  genuine byte values are `< 256`;
* the 8-byte `count[8]` array is a `List Nat` of length 8;
* the uninitialized 64-byte stack scratch array `XX` of `MD4Update` is an
  explicit parameter `scratch` of `MD4UpdateS`, so that independence from
  its initial contents can be stated; `MD4Update` fixes it to all zeros;
* the `printf` error diagnostics of `MD4Update` are mirrored by the
  separate predicate `MD4UpdateLogsError`, which records exactly in which
  branches the C code prints a diagnostic (the C function itself returns
  `void`, so the context transformer carries no error result);
* `int mdlen = len * 8` in `md4_update` is modelled without the 32-bit
  `int` truncation (all lengths of interest are far below `2^28` bytes).
-/

namespace PPPMD4

/-- Digest context, `MD4_CTX` in the source: `buffer[4]` holds the running
hash state, `count[8]` the number of bits processed so far (little-endian
byte order), `done` the completion flag. -/
structure MD4_CTX where
  buffer0 : Nat
  buffer1 : Nat
  buffer2 : Nat
  buffer3 : Nat
  count : List Nat
  done : Bool
deriving DecidableEq, Repr

/-- Round 2 constant `C2 = 013240474631` (octal, = 0x5A827999). -/
def C2 : Nat := 0o13240474631

/-- Round 3 constant `C3 = 015666365641` (octal, = 0x6ED9EBA1). -/
def C3 : Nat := 0o15666365641

/-- Round 1 selection function `f(X,Y,Z) = (X&Y) | ((~X)&Z)`; `~X` on a
32-bit word is XOR with `0xFFFFFFFF`. -/
def f (X Y Z : Nat) : Nat := (X &&& Y) ||| (((4294967295 : Nat) ^^^ X) &&& Z)

/-- Round 2 selection function `g(X,Y,Z) = (X&Y) | (X&Z) | (Y&Z)`. -/
def g (X Y Z : Nat) : Nat := (X &&& Y) ||| (X &&& Z) ||| (Y &&& Z)

/-- Round 3 selection function `h(X,Y,Z) = X^Y^Z`. -/
def h (X Y Z : Nat) : Nat := X ^^^ Y ^^^ Z

/-- 32-bit left rotation, the `rot(X,S)` macro: the argument is first
truncated to `unsigned int` (`tmp = X`), then `(tmp<<S) | (tmp>>(32-S))`. -/
def rot (X S : Nat) : Nat :=
  let tmp := X % 4294967296
  ((tmp <<< S) % 4294967296) ||| (tmp >>> (32 - S))

/-- Word assembly of `MDblock`: `X[i] = Xb[0] + (Xb[1]<<8) + (Xb[2]<<16) +
(Xb[3]<<24)` with `Xb` advanced 4 bytes per word, computed in `unsigned int`
arithmetic. -/
def MDword (Xb : Nat → Nat) (j : Nat) : Nat :=
  (Xb (4 * j) + (Xb (4 * j + 1) <<< 8) + (Xb (4 * j + 2) <<< 16) +
    (Xb (4 * j + 3) <<< 24)) % 4294967296

/-- Round 1 of `MDblock` (the 16 `ff` macro lines), on the four working
variables, reading the 16-word array `X` (`W i` is `X[i]`, i.e.
`X.getD i 0`). -/
def MDround1 (A B C D : Nat) (X : List Nat) : Nat × Nat × Nat × Nat :=
  let W : Nat → Nat := fun i => X.getD i 0
  let a1 := rot (A + f B C D + W 0) 3
  let d1 := rot (D + f a1 B C + W 1) 7
  let c1 := rot (C + f d1 a1 B + W 2) 11
  let b1 := rot (B + f c1 d1 a1 + W 3) 19
  let a2 := rot (a1 + f b1 c1 d1 + W 4) 3
  let d2 := rot (d1 + f a2 b1 c1 + W 5) 7
  let c2 := rot (c1 + f d2 a2 b1 + W 6) 11
  let b2 := rot (b1 + f c2 d2 a2 + W 7) 19
  let a3 := rot (a2 + f b2 c2 d2 + W 8) 3
  let d3 := rot (d2 + f a3 b2 c2 + W 9) 7
  let c3 := rot (c2 + f d3 a3 b2 + W 10) 11
  let b3 := rot (b2 + f c3 d3 a3 + W 11) 19
  let a4 := rot (a3 + f b3 c3 d3 + W 12) 3
  let d4 := rot (d3 + f a4 b3 c3 + W 13) 7
  let c4 := rot (c3 + f d4 a4 b3 + W 14) 11
  let b4 := rot (b3 + f c4 d4 a4 + W 15) 19
  (a4, b4, c4, d4)

/-- Round 2 of `MDblock` (the 16 `gg` macro lines). -/
def MDround2 (a4 b4 c4 d4 : Nat) (X : List Nat) : Nat × Nat × Nat × Nat :=
  let W : Nat → Nat := fun i => X.getD i 0
  let a5 := rot (a4 + g b4 c4 d4 + W 0 + C2) 3
  let d5 := rot (d4 + g a5 b4 c4 + W 4 + C2) 5
  let c5 := rot (c4 + g d5 a5 b4 + W 8 + C2) 9
  let b5 := rot (b4 + g c5 d5 a5 + W 12 + C2) 13
  let a6 := rot (a5 + g b5 c5 d5 + W 1 + C2) 3
  let d6 := rot (d5 + g a6 b5 c5 + W 5 + C2) 5
  let c6 := rot (c5 + g d6 a6 b5 + W 9 + C2) 9
  let b6 := rot (b5 + g c6 d6 a6 + W 13 + C2) 13
  let a7 := rot (a6 + g b6 c6 d6 + W 2 + C2) 3
  let d7 := rot (d6 + g a7 b6 c6 + W 6 + C2) 5
  let c7 := rot (c6 + g d7 a7 b6 + W 10 + C2) 9
  let b7 := rot (b6 + g c7 d7 a7 + W 14 + C2) 13
  let a8 := rot (a7 + g b7 c7 d7 + W 3 + C2) 3
  let d8 := rot (d7 + g a8 b7 c7 + W 7 + C2) 5
  let c8 := rot (c7 + g d8 a8 b7 + W 11 + C2) 9
  let b8 := rot (b7 + g c8 d8 a8 + W 15 + C2) 13
  (a8, b8, c8, d8)

/-- Round 3 of `MDblock` (the 16 `hh` macro lines). -/
def MDround3 (a8 b8 c8 d8 : Nat) (X : List Nat) : Nat × Nat × Nat × Nat :=
  let W : Nat → Nat := fun i => X.getD i 0
  let a9 := rot (a8 + h b8 c8 d8 + W 0 + C3) 3
  let d9 := rot (d8 + h a9 b8 c8 + W 8 + C3) 9
  let c9 := rot (c8 + h d9 a9 b8 + W 4 + C3) 11
  let b9 := rot (b8 + h c9 d9 a9 + W 12 + C3) 15
  let a10 := rot (a9 + h b9 c9 d9 + W 2 + C3) 3
  let d10 := rot (d9 + h a10 b9 c9 + W 10 + C3) 9
  let c10 := rot (c9 + h d10 a10 b9 + W 6 + C3) 11
  let b10 := rot (b9 + h c10 d10 a10 + W 14 + C3) 15
  let a11 := rot (a10 + h b10 c10 d10 + W 1 + C3) 3
  let d11 := rot (d10 + h a11 b10 c10 + W 9 + C3) 9
  let c11 := rot (c10 + h d11 a11 b10 + W 5 + C3) 11
  let b11 := rot (b10 + h c11 d11 a11 + W 13 + C3) 15
  let a12 := rot (a11 + h b11 c11 d11 + W 3 + C3) 3
  let d12 := rot (d11 + h a12 b11 c11 + W 11 + C3) 9
  let c12 := rot (c11 + h d12 a12 b11 + W 7 + C3) 11
  let b12 := rot (b11 + h c12 d12 a12 + W 15 + C3) 15
  (a12, b12, c12, d12)

/-- The 48 steps of `MDblock` on the four working variables: the three
rounds of 16 macro lines in source order. -/
def MDblockW (A B C D : Nat) (X : List Nat) : Nat × Nat × Nat × Nat :=
  match MDround1 A B C D X with
  | (a4, b4, c4, d4) =>
    match MDround2 a4 b4 c4 d4 X with
    | (a8, b8, c8, d8) => MDround3 a8 b8 c8 d8 X

/-- The 16-word array `X[16]` that `MDblock` assembles from the 64 input
bytes before the rounds. -/
def MDwords (Xb : Nat → Nat) : List Nat :=
  (List.range 16).map (fun j => MDword Xb j)

/-- The final four lines of `MDblock`: `MDp->buffer[i] += A` etc., each
with 32-bit wraparound (`unsigned int` addition). -/
def addStateW (MDp : MD4_CTX) (st : Nat × Nat × Nat × Nat) : MD4_CTX :=
  match st with
  | (A, B, C, D) =>
    { MDp with
      buffer0 := (MDp.buffer0 + A) % 4294967296
      buffer1 := (MDp.buffer1 + B) % 4294967296
      buffer2 := (MDp.buffer2 + C) % 4294967296
      buffer3 := (MDp.buffer3 + D) % 4294967296 }

/-- `MDblock(MDp, Xb)`: compress one 64-byte block (read through `Xb` at
indices 0..63) into the running state. -/
def MDblockCtx (MDp : MD4_CTX) (Xb : Nat → Nat) : MD4_CTX :=
  addStateW MDp
    (MDblockW MDp.buffer0 MDp.buffer1 MDp.buffer2 MDp.buffer3 (MDwords Xb))

/-- `MD4Init`: the magic initial state, zero bit count, not done. -/
def MD4InitCtx : MD4_CTX :=
  { buffer0 := 0x67452301
    buffer1 := 0xefcdab89
    buffer2 := 0x98badcfe
    buffer3 := 0x10325476
    count := List.replicate 8 0
    done := false }

/-- The bit-count accumulation loop of `MD4Update`:
`while (tmp) { tmp += *p; *p++ = tmp; tmp = tmp >> 8; }` over the
`count` byte array.  `tmp` is a 32-bit `unsigned int`, so `tmp += *p`
wraps modulo 2^32 (for an accumulator at `0xFFFFFFFF` meeting a nonzero
count byte the sum wraps to 0 and the loop stops, losing the carry); each
store truncates to `unsigned char`.  A carry still pending past the end
of the array is dropped (in the C code that write would fall outside
`count[8]`; a 32-bit accumulator is exhausted well before byte 8). -/
def addCarry : Nat → List Nat → List Nat
  | _, [] => []
  | tmp, b :: rest =>
    if tmp = 0 then b :: rest
    else
      let tmp' := (tmp + b) % 4294967296
      tmp' % 256 :: addCarry (tmp' >>> 8) rest

/-- The copy loop of the terminal path:
`if (count) for (i = 0; i <= byte; i++) XX[i] = X[i];` (entries not
written keep the scratch buffer's contents). -/
def XXcopy (scratch X : Nat → Nat) (count byte : Nat) : Nat → Nat :=
  fun i => if count ≠ 0 ∧ i ≤ byte then X i else scratch i

/-- The zero-fill loop: `for (i = byte + 1; i < 64; i++) XX[i] = 0;`. -/
def XXzero (xx : Nat → Nat) (byte : Nat) : Nat → Nat :=
  fun i => if byte + 1 ≤ i ∧ i < 64 then 0 else xx i

/-- The padding-bit store:
`XX[byte] = (XX[byte] | mask) & ~(mask - 1);` (`~` on `unsigned int`,
the store truncating to `unsigned char`). -/
def XXmask (xx : Nat → Nat) (byte mask : Nat) : Nat → Nat :=
  fun i =>
    if i = byte then
      ((xx byte ||| mask) &&& ((4294967295 : Nat) ^^^ (mask - 1))) % 256
    else xx i

/-- The bit-count store: `for (i = 0; i < 8; i++) XX[56+i] = MDp->count[i];`. -/
def XXcount (xx : Nat → Nat) (cnt : List Nat) : Nat → Nat :=
  fun i => if 56 ≤ i ∧ i < 64 then cnt.getD (i - 56) 0 else xx i

/-- The second-block preparation of the two-block case:
`for (i = 0; i < 56; i++) XX[i] = 0;` followed by the bit-count store. -/
def XXzero56 (xx : Nat → Nat) (cnt : List Nat) : Nat → Nat :=
  fun i =>
    if i < 56 then 0
    else if i < 64 then cnt.getD (i - 56) 0
    else xx i

/-- `MD4Update(MDp, X, count)` with the uninitialized stack buffer
`XX[64]` made explicit as `scratch`.  Mirrors the source branch for
branch: courtesy close, done-error, bit-count accumulation, full block,
oversized-count error, and the terminal partial-block padding path. -/
def MD4UpdateS (scratch : Nat → Nat) (MDp : MD4_CTX) (X : Nat → Nat)
    (count : Nat) : MD4_CTX :=
  if count = 0 ∧ MDp.done then MDp
  else if MDp.done then MDp
  else
    let cnt := addCarry count MDp.count
    let MDp1 := { MDp with count := cnt }
    if count = 512 then MDblockCtx MDp1 X
    else if count > 512 then MDp1
    else
      let byte := count >>> 3
      let bit := count &&& 7
      let mask := 1 <<< (7 - bit)
      let XX3 := XXmask (XXzero (XXcopy scratch X count byte) byte) byte mask
      if byte ≤ 55 then
        { MDblockCtx MDp1 (XXcount XX3 cnt) with done := true }
      else
        { MDblockCtx (MDblockCtx MDp1 XX3) (XXzero56 XX3 cnt) with
          done := true }

/-- `MD4Update` as called by the rest of the file: the contents of the
uninitialized scratch buffer are irrelevant (proved below), so they are
fixed to zero. -/
def MD4Update (MDp : MD4_CTX) (X : Nat → Nat) (count : Nat) : MD4_CTX :=
  MD4UpdateS (fun _ => 0) MDp X count

/-- In which branches `MD4Update` prints an error diagnostic (`printf`):
a non-courtesy call on a finished context, and an oversized count.  The C
function returns `void`, so this log is its only error signal. -/
def MD4UpdateLogsError (MDp : MD4_CTX) (count : Nat) : Bool :=
  if count = 0 ∧ MDp.done then false
  else if MDp.done then true
  else if count = 512 then false
  else if count > 512 then true
  else false

/-- The serialization loop of `MD4Final`: for one state word `w`, emit
`*buf++ = w; w >>= 8;` four times (each store truncates to a byte). -/
def word4LE (w : Nat) : List Nat :=
  [w % 256, (w >>> 8) % 256, (w >>> 8 >>> 8) % 256, (w >>> 8 >>> 8 >>> 8) % 256]

/-- `MD4Final(buf, MD)`: issue `MD4Update(MD, NULL, 0)` (the NULL data
pointer is modelled by the never-read function `fun _ => 0`), then emit the
four state words least-significant byte first.  Returns the 16 digest
bytes together with the mutated context. -/
def MD4Final (MD : MD4_CTX) : List Nat × MD4_CTX :=
  let MD' := MD4Update MD (fun _ => 0) 0
  (word4LE MD'.buffer0 ++ word4LE MD'.buffer1 ++
    word4LE MD'.buffer2 ++ word4LE MD'.buffer3, MD')

/-- The chunking loop of the adapter `md4_update`:
`while (mdlen > 512) { MD4Update(ctx, data, 512); data += 64; mdlen -= 512; }
MD4Update(ctx, data, mdlen);`. -/
def md4_update_loop (ctx : MD4_CTX) (data : Nat → Nat) (mdlen : Nat) :
    MD4_CTX :=
  if mdlen > 512 then
    md4_update_loop (MD4Update ctx data 512) (fun i => data (i + 64))
      (mdlen - 512)
  else MD4Update ctx data mdlen
termination_by mdlen
decreasing_by omega

/-- Adapter `md4_update(ctx, data, len)`: converts the byte length to a
bit length (`mdlen = len * 8`), runs the chunking loop, and returns 1
unconditionally (the source never surfaces an error from this path). -/
def md4_update (ctx : MD4_CTX) (data : Nat → Nat) (len : Nat) :
    MD4_CTX × Nat :=
  (md4_update_loop ctx data (8 * len), 1)

/-- Adapter `md4_final(ctx, out, len)`: runs `MD4Final` and returns 1
unconditionally. -/
def md4_final (ctx : MD4_CTX) : (List Nat × MD4_CTX) × Nat :=
  (MD4Final ctx, 1)

/-- View a byte-list message as a data pointer (out-of-range reads give 0;
the engine never performs them for in-contract calls). -/
def asFn (M : List Nat) : Nat → Nat := fun i => M.getD i 0

/-- Feed one byte-list chunk through the adapter, keeping the context. -/
def md4_feed (ctx : MD4_CTX) (M : List Nat) : MD4_CTX :=
  (md4_update ctx (asFn M) M.length).1

/-- The 16 digest bytes the adapter `md4_final` hands back for `ctx`. -/
def digestOf (ctx : MD4_CTX) : List Nat := (MD4Final ctx).1

/-- Full create/feed/finish pipeline on a single buffer. -/
def md4_digest (M : List Nat) : List Nat :=
  digestOf (md4_feed MD4InitCtx M)

/-- Lowercase hex digit. -/
def hexChar (n : Nat) : Char :=
  Char.ofNat (if n < 10 then 48 + n else 87 + n)

/-- Lowercase hexadecimal rendering of a byte string, most-significant
nibble of each byte first. -/
def toHex (bs : List Nat) : String :=
  String.mk ((bs.map (fun b => [hexChar (b >>> 4), hexChar (b % 16)])).flatten)

/-! ### Spec-side reference definitions

The following definitions are written from the words of the specification
(not from the source) and serve as the comparison side of refinement
claims: the direct reference MD4 computation (pad, then compress the
blocks in order), the spec's description of one block-transform round,
and the spec's description of the terminal padding block. -/

/-- `n` bytes of `w`, least-significant byte first. -/
def leBytes : Nat → Nat → List Nat
  | 0, _ => []
  | k + 1, w => w % 256 :: leBytes k (w >>> 8)

/-- Reference padding, from the spec's glossary: append a 1-bit (`0x80`
on a byte boundary), zero-fill so the length field ends a 64-byte block,
then the 64-bit little-endian bit length. -/
def refPadded (M : List Nat) : List Nat :=
  M ++ 128 :: List.replicate ((119 - M.length % 64) % 64) 0 ++
    leBytes 8 (8 * M.length)

/-- Direct reference MD4 computation of a whole message: initial state,
compress each 64-byte block of the padded message in order, serialize
each state word least-significant byte first. -/
def refDigest (M : List Nat) : List Nat :=
  let P := refPadded M
  let fin := (List.range (P.length / 64)).foldl
    (fun c k => MDblockCtx c (fun i => P.getD (64 * k + i) 0)) MD4InitCtx
  word4LE fin.buffer0 ++ word4LE fin.buffer1 ++
    word4LE fin.buffer2 ++ word4LE fin.buffer3

/-- Spec-side word assembly: 16 unsigned 32-bit words assembled
least-significant byte first. -/
def wordLE (Xb : Nat → Nat) (j : Nat) : Nat :=
  (Xb (4 * j) + 256 * Xb (4 * j + 1) + 65536 * Xb (4 * j + 2) +
    16777216 * Xb (4 * j + 3)) % 4294967296

/-- Round 1 (message word, rotate) schedule: sequential word order,
rotate amounts cycling through 3, 7, 11, 19. -/
def r1ix : List (Nat × Nat) :=
  [(0, 3), (1, 7), (2, 11), (3, 19), (4, 3), (5, 7), (6, 11), (7, 19),
   (8, 3), (9, 7), (10, 11), (11, 19), (12, 3), (13, 7), (14, 11), (15, 19)]

/-- Round 2 schedule: word order 0,4,8,12,1,5,9,13,2,6,10,14,3,7,11,15,
rotate amounts cycling through 3, 5, 9, 13. -/
def r2ix : List (Nat × Nat) :=
  [(0, 3), (4, 5), (8, 9), (12, 13), (1, 3), (5, 5), (9, 9), (13, 13),
   (2, 3), (6, 5), (10, 9), (14, 13), (3, 3), (7, 5), (11, 9), (15, 13)]

/-- Round 3 schedule: word order 0,8,4,12,2,10,6,14,1,9,5,13,3,11,7,15,
rotate amounts cycling through 3, 9, 11, 15. -/
def r3ix : List (Nat × Nat) :=
  [(0, 3), (8, 9), (4, 11), (12, 15), (2, 3), (10, 9), (6, 11), (14, 15),
   (1, 3), (9, 9), (5, 11), (13, 15), (3, 3), (11, 9), (7, 11), (15, 15)]

/-- One round step as the spec describes it: combine the first working
variable with the selection function of the other three, the message word,
and the round constant, left-rotate, then rotate the four working
variables `(A,B,C,D) → (D,A,B,C)`. -/
def roundStep (sel : Nat → Nat → Nat → Nat) (K : Nat) (X : List Nat)
    (st : Nat × Nat × Nat × Nat) (p : Nat × Nat) : Nat × Nat × Nat × Nat :=
  match st, p with
  | (a, b, c, d), (i, s) => (d, rot (a + sel b c d + X.getD i 0 + K) s, b, c)

/-- `roundStep` with the round constant dropped from the sum: the form the
round-1 step (`K = 0`) takes once the zero constant is simplified away. -/
def roundStepF (sel : Nat → Nat → Nat → Nat) (X : List Nat)
    (st : Nat × Nat × Nat × Nat) (p : Nat × Nat) : Nat × Nat × Nat × Nat :=
  match st, p with
  | (a, b, c, d), (i, s) => (d, rot (a + sel b c d + X.getD i 0) s, b, c)

/-- The block transform as the spec describes it: assemble 16 words
little-endian, run the three rounds over their schedules (round constants
0, `C2`, `C3`), then add each working variable to the corresponding prior
state word modulo 2^32. -/
def MDblockSpec (MDp : MD4_CTX) (Xb : Nat → Nat) : MD4_CTX :=
  let X := (List.range 16).map (fun j => wordLE Xb j)
  let st1 := r1ix.foldl (roundStep f 0 X) (MDp.buffer0, MDp.buffer1, MDp.buffer2, MDp.buffer3)
  let st2 := r2ix.foldl (roundStep g C2 X) st1
  let st3 := r3ix.foldl (roundStep h C3 X) st2
  addStateW MDp st3

/-- The terminal padding block as the spec describes it: the partial bytes
(high bits of the boundary byte included), a single 1 bit immediately after
the last valid bit (OR the mask into the boundary byte and clear the bits
below it), zero-fill to the end of the block.  Bytes past index 63 are the
scratch buffer's, as in the code (they are never read). -/
def specPadBlock (scratch X : Nat → Nat) (count : Nat) : Nat → Nat :=
  fun i =>
    let byte := count / 8
    let bit := count % 8
    let mask := 2 ^ (7 - bit)
    if i < 64 then
      if i < byte then X i
      else if i = byte then
        (((if count = 0 then scratch i else X i) ||| mask) &&&
          ((4294967295 : Nat) ^^^ (mask - 1))) % 256
      else 0
    else scratch i

/-- The spec's one-block terminal layout: the padded partial block with the
8 accumulated bit-count bytes at offset 56. -/
def specPadBlockWithCount (scratch X : Nat → Nat) (count : Nat)
    (cnt : List Nat) : Nat → Nat :=
  fun i =>
    if 56 ≤ i ∧ i < 64 then cnt.getD (i - 56) 0
    else specPadBlock scratch X count i

/-- The spec's second terminal block: all zero, with the 8 accumulated
bit-count bytes at offset 56. -/
def specCountBlock (cnt : List Nat) : Nat → Nat :=
  fun i => if 56 ≤ i ∧ i < 64 then cnt.getD (i - 56) 0 else 0

/-- The block a zero-bit terminal feed compresses: `0x80`, then zeros,
then the 8 bit-count bytes at offset 56. -/
def emptyPadBlock (cnt : List Nat) : Nat → Nat :=
  fun i =>
    if i = 0 then 128
    else if i < 56 then 0
    else if i < 64 then cnt.getD (i - 56) 0
    else 0

/-- Little-endian value of a byte list (the number the 8 `count` bytes
represent). -/
def leVal : List Nat → Nat
  | [] => 0
  | b :: rest => b + 256 * leVal rest

/-- A sequence of internal feed calls, each a data pointer with a bit
count, applied in order. -/
def runCalls (ctx : MD4_CTX) (calls : List ((Nat → Nat) × Nat)) : MD4_CTX :=
  calls.foldl (fun c pr => MD4Update c pr.1 pr.2) ctx

/-- Total number of bits passed across a sequence of feed calls. -/
def sumBits (calls : List ((Nat → Nat) × Nat)) : Nat :=
  (calls.map Prod.snd).sum

/-- Every call of the sequence is accepted at the point it is made: its
bit count is at most 512, and it is not a non-courtesy call on a finished
context (the two rejected-call shapes of `MD4Update`). -/
def acceptedRun : MD4_CTX → List ((Nat → Nat) × Nat) → Prop
  | _, [] => True
  | ctx, pr :: rest =>
    (pr.2 ≤ 512 ∧ ¬(ctx.done = true ∧ pr.2 ≠ 0)) ∧
      acceptedRun (MD4Update ctx pr.1 pr.2) rest

instance acceptedRunDecidable :
    (ctx : MD4_CTX) → (calls : List ((Nat → Nat) × Nat)) →
      Decidable (acceptedRun ctx calls)
  | _, [] => .isTrue trivial
  | ctx, pr :: rest =>
    haveI := acceptedRunDecidable (MD4Update ctx pr.1 pr.2) rest
    inferInstanceAs (Decidable (_ ∧ _))

theorem roundStep_zero (sel : Nat → Nat → Nat → Nat) :
    roundStep sel 0 = roundStepF sel := by
  funext X st p
  rcases st with ⟨a, b, c, d⟩
  rcases p with ⟨i, s⟩
  simp [roundStep, roundStepF]

theorem MDround1_eq_foldl (A B C D : Nat) (X : List Nat) :
    MDround1 A B C D X =
      List.foldl (roundStepF f X) (A, B, C, D) r1ix := rfl

theorem MDround2_eq_foldl (a b c d : Nat) (X : List Nat) :
    MDround2 a b c d X =
      List.foldl (roundStep g C2 X) (a, b, c, d) r2ix := rfl

theorem MDround3_eq_foldl (a b c d : Nat) (X : List Nat) :
    MDround3 a b c d X =
      List.foldl (roundStep h C3 X) (a, b, c, d) r3ix := rfl

theorem MDblockW_eq_foldl (A B C D : Nat) (X : List Nat) :
    MDblockW A B C D X =
      List.foldl (roundStep h C3 X)
        (List.foldl (roundStep g C2 X)
          (List.foldl (roundStep f 0 X) (A, B, C, D) r1ix) r2ix) r3ix := by
  rw [roundStep_zero, ← MDround1_eq_foldl A B C D X]
  rcases h1 : MDround1 A B C D X with ⟨a4, b4, c4, d4⟩
  rw [← MDround2_eq_foldl a4 b4 c4 d4 X]
  rcases h2 : MDround2 a4 b4 c4 d4 X with ⟨a8, b8, c8, d8⟩
  rw [← MDround3_eq_foldl a8 b8 c8 d8 X]
  simp only [MDblockW, h1, h2]

theorem MDword_eq_wordLE (Xb : Nat → Nat) (j : Nat) :
    MDword Xb j = wordLE Xb j := by
  unfold MDword wordLE
  omega

theorem MDwords_eq (Xb : Nat → Nat) :
    MDwords Xb = (List.range 16).map (fun j => wordLE Xb j) :=
  List.map_congr_left fun j _ => MDword_eq_wordLE Xb j

theorem MDblockCtx_eq_spec (ctx : MD4_CTX) (Xb : Nat → Nat) :
    MDblockCtx ctx Xb = MDblockSpec ctx Xb := by
  unfold MDblockCtx MDblockSpec
  rw [MDwords_eq, MDblockW_eq_foldl]

theorem MDwords_congr (Xb Xb' : Nat → Nat)
    (h64 : ∀ i, i < 64 → Xb i = Xb' i) : MDwords Xb = MDwords Xb' := by
  refine List.map_congr_left fun j hj => ?_
  have hj16 : j < 16 := List.mem_range.mp hj
  unfold MDword
  rw [h64 (4 * j) (by omega), h64 (4 * j + 1) (by omega),
    h64 (4 * j + 2) (by omega), h64 (4 * j + 3) (by omega)]

theorem MDblockCtx_congr (ctx : MD4_CTX) (Xb Xb' : Nat → Nat)
    (h64 : ∀ i, i < 64 → Xb i = Xb' i) :
    MDblockCtx ctx Xb = MDblockCtx ctx Xb' := by
  unfold MDblockCtx
  rw [MDwords_congr Xb Xb' h64]

theorem addCarry_zero (l : List Nat) : addCarry 0 l = l := by
  cases l <;> simp [addCarry]

theorem MD4UpdateS_of_done (s X : Nat → Nat) (ctx : MD4_CTX) (c : Nat)
    (hd : ctx.done = true) : MD4UpdateS s ctx X c = ctx := by
  unfold MD4UpdateS
  simp [hd]

theorem MD4UpdateS_full (s X : Nat → Nat) (ctx : MD4_CTX)
    (hd : ctx.done = false) :
    MD4UpdateS s ctx X 512 =
      MDblockCtx { ctx with count := addCarry 512 ctx.count } X := by
  unfold MD4UpdateS
  simp [hd]

theorem MD4UpdateS_over (s X : Nat → Nat) (ctx : MD4_CTX) (c : Nat)
    (hd : ctx.done = false) (hc : c > 512) :
    MD4UpdateS s ctx X c = { ctx with count := addCarry c ctx.count } := by
  unfold MD4UpdateS
  simp [hd, hc, Nat.ne_of_gt hc]

theorem XX3_eq (s X : Nat → Nat) (c : Nat) (hc : c < 512) :
    XXmask (XXzero (XXcopy s X c (c >>> 3)) (c >>> 3)) (c >>> 3)
      (1 <<< (7 - (c &&& 7))) = specPadBlock s X c := by
  have h8 : c >>> 3 = c / 8 := by simp [Nat.shiftRight_eq_div_pow]
  have h7 : c &&& 7 = c % 8 := by
    have h9 : (7 : Nat) = 2 ^ 3 - 1 := by norm_num
    rw [h9, Nat.and_pow_two_sub_one_eq_mod]
  have hm : (1 : Nat) <<< (7 - c % 8) = 2 ^ (7 - c % 8) := by
    simp [Nat.shiftLeft_eq]
  funext i
  simp only [XXmask, XXzero, XXcopy, specPadBlock, h8, h7, hm]
  by_cases hi64 : i < 64
  · by_cases hib : i = c / 8
    · subst hib
      have hflip : (if c ≠ 0 ∧ c / 8 ≤ c / 8 then X (c / 8) else s (c / 8)) =
          (if c = 0 then s (c / 8) else X (c / 8)) := by
        by_cases h0 : c = 0 <;> simp [h0]
      simp only [if_pos rfl, if_neg (by omega : ¬(c / 8 + 1 ≤ c / 8 ∧ c / 8 < 64)),
        hflip, if_pos hi64, if_neg (by omega : ¬(c / 8 < c / 8))]
      simp
    · by_cases hlt : i < c / 8
      · simp only [if_neg hib, if_neg (by omega : ¬(c / 8 + 1 ≤ i ∧ i < 64)),
          if_pos (by omega : c ≠ 0 ∧ i ≤ c / 8), if_pos hi64, if_pos hlt]
      · simp only [if_neg hib, if_pos (by omega : c / 8 + 1 ≤ i ∧ i < 64),
          if_pos hi64, if_neg hlt]
  · have hb : c / 8 < 64 := by omega
    simp only [if_neg (by omega : ¬i = c / 8),
      if_neg (by omega : ¬(c / 8 + 1 ≤ i ∧ i < 64)),
      if_neg (by omega : ¬(c ≠ 0 ∧ i ≤ c / 8)), if_neg hi64]

theorem MDblockCtx_zero56 (ctx : MD4_CTX) (xx : Nat → Nat) (cnt : List Nat) :
    MDblockCtx ctx (XXzero56 xx cnt) = MDblockCtx ctx (specCountBlock cnt) := by
  refine MDblockCtx_congr _ _ _ fun i hi => ?_
  unfold XXzero56 specCountBlock
  by_cases h56 : i < 56
  · simp only [if_pos h56,
      if_neg (show ¬(56 ≤ i ∧ i < 64) from by omega)]
  · simp only [if_neg h56, if_pos hi,
      if_pos (show 56 ≤ i ∧ i < 64 from ⟨by omega, hi⟩)]

theorem MD4UpdateS_terminal (s X : Nat → Nat) (ctx : MD4_CTX) (c : Nat)
    (hd : ctx.done = false) (hc : c < 512) :
    MD4UpdateS s ctx X c =
      if c / 8 ≤ 55 then
        { MDblockCtx { ctx with count := addCarry c ctx.count }
            (specPadBlockWithCount s X c (addCarry c ctx.count)) with
          done := true }
      else
        { MDblockCtx
            (MDblockCtx { ctx with count := addCarry c ctx.count }
              (specPadBlock s X c))
            (specCountBlock (addCarry c ctx.count)) with
          done := true } := by
  have h8 : c >>> 3 = c / 8 := by simp [Nat.shiftRight_eq_div_pow]
  unfold MD4UpdateS
  rw [if_neg (by simp [hd]), if_neg (by simp [hd]),
    if_neg (by omega : ¬c = 512), if_neg (by omega : ¬c > 512)]
  simp only [XX3_eq s X c hc]
  simp only [h8]
  by_cases hb : c / 8 ≤ 55
  · rw [if_pos hb, if_pos hb]
    have hcnt : XXcount (specPadBlock s X c) (addCarry c ctx.count) =
        specPadBlockWithCount s X c (addCarry c ctx.count) := rfl
    rw [hcnt]
  · rw [if_neg hb, if_neg hb]
    rw [MDblockCtx_zero56]

theorem MDblockCtx_count (ctx : MD4_CTX) (Xb : Nat → Nat) :
    (MDblockCtx ctx Xb).count = ctx.count := by
  unfold MDblockCtx addStateW
  rcases hst : MDblockW ctx.buffer0 ctx.buffer1 ctx.buffer2 ctx.buffer3
    (MDwords Xb) with ⟨A, B, C, D⟩
  rfl

theorem MDblockCtx_done (ctx : MD4_CTX) (Xb : Nat → Nat) :
    (MDblockCtx ctx Xb).done = ctx.done := by
  unfold MDblockCtx addStateW
  rcases hst : MDblockW ctx.buffer0 ctx.buffer1 ctx.buffer2 ctx.buffer3
    (MDwords Xb) with ⟨A, B, C, D⟩
  rfl

theorem specPadBlock_zero (s X Y : Nat → Nat) :
    specPadBlock s X 0 = specPadBlock s Y 0 := by
  funext i
  unfold specPadBlock
  simp

theorem specPadBlockWithCount_zero (s X Y : Nat → Nat) (cnt : List Nat) :
    specPadBlockWithCount s X 0 cnt = specPadBlockWithCount s Y 0 cnt := by
  unfold specPadBlockWithCount
  rw [specPadBlock_zero s X Y]

theorem MD4UpdateS_zero_irrel (s : Nat → Nat) (ctx : MD4_CTX)
    (X Y : Nat → Nat) : MD4UpdateS s ctx X 0 = MD4UpdateS s ctx Y 0 := by
  cases hd : ctx.done
  · rw [MD4UpdateS_terminal s X ctx 0 hd (by omega),
      MD4UpdateS_terminal s Y ctx 0 hd (by omega),
      if_pos (by norm_num : (0 : Nat) / 8 ≤ 55),
      if_pos (by norm_num : (0 : Nat) / 8 ≤ 55),
      specPadBlockWithCount_zero s X Y]
  · rw [MD4UpdateS_of_done s X ctx 0 hd, MD4UpdateS_of_done s Y ctx 0 hd]

theorem MD4UpdateS_zero_done (s X : Nat → Nat) (ctx : MD4_CTX) :
    (MD4UpdateS s ctx X 0).done = true := by
  cases hd : ctx.done
  · rw [MD4UpdateS_terminal s X ctx 0 hd (by omega)]
    split_ifs <;> rfl
  · rw [MD4UpdateS_of_done s X ctx 0 hd]
    exact hd

theorem MD4Update_zero_idem (s X Y : Nat → Nat) (ctx : MD4_CTX) :
    MD4UpdateS s (MD4Update ctx X 0) Y 0 = MD4Update ctx X 0 :=
  MD4UpdateS_of_done s Y (MD4Update ctx X 0) 0
    (MD4UpdateS_zero_done (fun _ => 0) X ctx)

theorem digestOf_update0 (X : Nat → Nat) (ctx : MD4_CTX) :
    digestOf (MD4Update ctx X 0) = digestOf ctx := by
  unfold digestOf MD4Final
  rw [show MD4Update (MD4Update ctx X 0) (fun _ => 0) 0 = MD4Update ctx X 0
      from MD4Update_zero_idem (fun _ => 0) X (fun _ => 0) ctx]
  rw [show MD4Update ctx X 0 = MD4Update ctx (fun _ => 0) 0 from
    MD4UpdateS_zero_irrel (fun _ => 0) ctx X (fun _ => 0)]

theorem md4_update_loop_gt (ctx : MD4_CTX) (data : Nat → Nat) (mdlen : Nat)
    (hm : mdlen > 512) :
    md4_update_loop ctx data mdlen =
      md4_update_loop (MD4Update ctx data 512) (fun i => data (i + 64))
        (mdlen - 512) := by
  conv_lhs => unfold md4_update_loop
  rw [if_pos hm]

theorem md4_update_loop_le (ctx : MD4_CTX) (data : Nat → Nat) (mdlen : Nat)
    (hm : ¬mdlen > 512) :
    md4_update_loop ctx data mdlen = MD4Update ctx data mdlen := by
  unfold md4_update_loop
  rw [if_neg hm]

theorem md4_feed_eq (ctx : MD4_CTX) (M : List Nat) :
    md4_feed ctx M = md4_update_loop ctx (asFn M) (8 * M.length) := rfl

theorem md4_feed_small (ctx : MD4_CTX) (M : List Nat) (hM : M.length ≤ 64) :
    md4_feed ctx M = MD4Update ctx (asFn M) (8 * M.length) := by
  rw [md4_feed_eq, md4_update_loop_le _ _ _ (by omega)]

theorem digestOf_feed_nil (ctx : MD4_CTX) :
    digestOf (md4_feed ctx []) = digestOf ctx := by
  rw [md4_feed_small ctx [] (by simp)]
  simp only [List.length_nil, Nat.mul_zero]
  exact digestOf_update0 (asFn []) ctx

theorem addCarry_length :
    ∀ (l : List Nat) (t : Nat), (addCarry t l).length = l.length := by
  intro l
  induction l with
  | nil => intro t; rfl
  | cons b rest ih =>
    intro t
    unfold addCarry
    by_cases ht : t = 0
    · rw [if_pos ht]
    · rw [if_neg ht]
      simp [ih]

theorem addCarry_bytes :
    ∀ (l : List Nat) (t : Nat), (∀ b ∈ l, b < 256) →
      ∀ b ∈ addCarry t l, b < 256 := by
  intro l
  induction l with
  | nil =>
    intro t _ b hb
    simp [addCarry] at hb
  | cons x rest ih =>
    intro t hl b hb
    unfold addCarry at hb
    by_cases ht : t = 0
    · rw [if_pos ht] at hb
      exact hl b hb
    · rw [if_neg ht] at hb
      rcases List.mem_cons.mp hb with hcase | hcase
      · subst hcase
        exact Nat.mod_lt _ (by omega)
      · exact ih (((t + x) % 4294967296) >>> 8)
          (fun y hy => hl y (List.mem_cons_of_mem _ hy)) b hcase

theorem leVal_lt :
    ∀ l : List Nat, (∀ b ∈ l, b < 256) → leVal l < 256 ^ l.length := by
  intro l
  induction l with
  | nil =>
    intro
    simp [leVal]
  | cons b rest ih =>
    intro hl
    have hb : b < 256 := hl b (List.mem_cons_self _ _)
    have hr := ih (fun y hy => hl y (List.mem_cons_of_mem _ hy))
    simp only [leVal, List.length_cons, pow_succ]
    omega

theorem le_mod_step (t b lv P : Nat) (hP : 0 < P) (_hlv : lv < P) :
    (t + b) % 256 + 256 * (((t + b) / 256 + lv) % P) =
      (t + (b + 256 * lv)) % (256 * P) := by
  have hqr : 256 * ((t + b) / 256) + (t + b) % 256 = t + b :=
    Nat.div_add_mod (t + b) 256
  have hrlt : (t + b) % 256 < 256 := Nat.mod_lt _ (by norm_num)
  have hmr : P * (((t + b) / 256 + lv) / P) + ((t + b) / 256 + lv) % P =
      (t + b) / 256 + lv := Nat.div_add_mod _ P
  have hremlt : ((t + b) / 256 + lv) % P < P := Nat.mod_lt _ hP
  have h3 : t + (b + 256 * lv) =
      256 * (((t + b) / 256 + lv) % P) + (t + b) % 256 +
        (256 * P) * (((t + b) / 256 + lv) / P) := by
    nlinarith [hqr, hmr]
  rw [h3, Nat.add_mul_mod_self_left,
    Nat.mod_eq_of_lt (by nlinarith : 256 * (((t + b) / 256 + lv) % P) +
      (t + b) % 256 < 256 * P)]
  omega

theorem leVal_addCarry :
    ∀ (l : List Nat) (t : Nat), (∀ b ∈ l, b < 256) → t < 4294967041 →
      leVal (addCarry t l) = (t + leVal l) % 256 ^ l.length := by
  intro l
  induction l with
  | nil =>
    intro t _ _
    simp [addCarry, leVal, Nat.mod_one]
  | cons b rest ih =>
    intro t hl hsmall
    have hb : b < 256 := hl b (List.mem_cons_self _ _)
    have hrest : ∀ y ∈ rest, y < 256 :=
      fun y hy => hl y (List.mem_cons_of_mem _ hy)
    have hlv := leVal_lt rest hrest
    by_cases ht : t = 0
    · subst ht
      rw [addCarry_zero, Nat.zero_add,
        Nat.mod_eq_of_lt (by simp only [leVal, List.length_cons, pow_succ]; omega)]
    · have hw : (t + b) % 4294967296 = t + b := Nat.mod_eq_of_lt (by omega)
      have hsh : (t + b) >>> 8 = (t + b) / 256 := by
        simp [Nat.shiftRight_eq_div_pow]
      unfold addCarry
      rw [if_neg ht]
      simp only [leVal, List.length_cons, hw]
      rw [ih ((t + b) >>> 8) hrest (by rw [hsh]; omega), hsh,
        pow_succ, Nat.mul_comm (256 ^ rest.length) 256]
      exact le_mod_step t b (leVal rest) (256 ^ rest.length)
        (by positivity) hlv


theorem MD4Update_512_congr (ctx : MD4_CTX) (d d' : Nat → Nat)
    (h64 : ∀ i, i < 64 → d i = d' i) :
    MD4Update ctx d 512 = MD4Update ctx d' 512 := by
  show MD4UpdateS (fun _ => 0) ctx d 512 = MD4UpdateS (fun _ => 0) ctx d' 512
  cases hd : ctx.done
  · rw [MD4UpdateS_full (fun _ => 0) d ctx hd,
      MD4UpdateS_full (fun _ => 0) d' ctx hd]
    exact MDblockCtx_congr _ d d' h64
  · rw [MD4UpdateS_of_done (fun _ => 0) d ctx 512 hd,
      MD4UpdateS_of_done (fun _ => 0) d' ctx 512 hd]

theorem asFn_append_left (d1 d2 : List Nat) (i : Nat) (hi : i < d1.length) :
    asFn (d1 ++ d2) i = asFn d1 i := by
  unfold asFn
  exact List.getD_append d1 d2 0 i hi

theorem asFn_shift_drop (d1 : List Nat) :
    (fun i => asFn d1 (i + 64)) = asFn (d1.drop 64) := by
  funext i
  unfold asFn
  simp only [List.getD_eq_getElem?_getD, List.getElem?_drop]
  rw [Nat.add_comm 64 i]

theorem asFn_shift_append (d1 d2 : List Nat) (hlen : d1.length = 64) :
    (fun i => asFn (d1 ++ d2) (i + 64)) = asFn d2 := by
  funext i
  unfold asFn
  rw [List.getD_append_right d1 d2 0 (i + 64) (by omega)]
  congr 1
  omega

theorem md4_feed_append_aux :
    ∀ (n : Nat) (d1 d2 : List Nat) (ctx : MD4_CTX), d1.length = n →
      n % 64 = 0 → n ≠ 0 → d2 ≠ [] →
      md4_feed (md4_feed ctx d1) d2 = md4_feed ctx (d1 ++ d2) := by
  intro n
  induction n using Nat.strong_induction_on with
  | _ n ih =>
    intro d1 d2 ctx hlen hmod hn0 hd2
    have hd2len : 0 < d2.length := List.length_pos.mpr hd2
    by_cases hbase : n = 64
    · have hfeed1 : md4_feed ctx d1 = MD4Update ctx (asFn d1) 512 := by
        rw [md4_feed_small ctx d1 (by omega)]
        congr 1
        omega
      rw [md4_feed_eq ctx (d1 ++ d2),
        md4_update_loop_gt _ _ _ (by simp [List.length_append]; omega),
        asFn_shift_append d1 d2 (by omega),
        show 8 * (d1 ++ d2).length - 512 = 8 * d2.length by
          simp [List.length_append]; omega,
        show MD4Update ctx (asFn (d1 ++ d2)) 512 = MD4Update ctx (asFn d1) 512
          from MD4Update_512_congr ctx _ _
            (fun i hi => asFn_append_left d1 d2 i (by omega)),
        ← md4_feed_eq, hfeed1]
    · have hgt : 128 ≤ n := by omega
      have e1 : md4_feed ctx d1 =
          md4_feed (MD4Update ctx (asFn d1) 512) (d1.drop 64) := by
        rw [md4_feed_eq ctx d1, md4_update_loop_gt _ _ _ (by omega),
          asFn_shift_drop d1, md4_feed_eq,
          show 8 * d1.length - 512 = 8 * (d1.drop 64).length by
            simp [List.length_drop]; omega]
      have e2 : md4_feed ctx (d1 ++ d2) =
          md4_feed (MD4Update ctx (asFn d1) 512) (d1.drop 64 ++ d2) := by
        rw [md4_feed_eq ctx (d1 ++ d2),
          md4_update_loop_gt _ _ _ (by simp [List.length_append]; omega),
          show (fun i => asFn (d1 ++ d2) (i + 64)) =
              asFn ((d1 ++ d2).drop 64) from asFn_shift_drop (d1 ++ d2),
          List.drop_append_of_le_length (by omega), md4_feed_eq,
          show 8 * (d1 ++ d2).length - 512 =
              8 * ((d1.drop 64) ++ d2).length by
            simp [List.length_append, List.length_drop]; omega,
          show MD4Update ctx (asFn (d1 ++ d2)) 512 =
              MD4Update ctx (asFn d1) 512 from MD4Update_512_congr ctx _ _
            (fun i hi => asFn_append_left d1 d2 i (by omega))]
      rw [e1, e2]
      exact ih (n - 64) (by omega) (d1.drop 64) d2 _
        (by simp [List.length_drop]; omega) (by omega) (by omega) hd2

theorem md4_feed_append (d1 d2 : List Nat) (ctx : MD4_CTX)
    (hmod : d1.length % 64 = 0) (h0 : d1 ≠ []) (h2 : d2 ≠ []) :
    md4_feed (md4_feed ctx d1) d2 = md4_feed ctx (d1 ++ d2) :=
  md4_feed_append_aux d1.length d1 d2 ctx rfl hmod
    (by simp [List.length_eq_zero] at *; exact h0) h2

theorem chunk_invariance_aux :
    ∀ (parts : List (List Nat)) (ctx : MD4_CTX),
      (∀ p ∈ parts.dropLast, p.length % 64 = 0 ∧ p ≠ []) →
      digestOf (parts.foldl md4_feed ctx) =
        digestOf (md4_feed ctx parts.flatten) := by
  intro parts
  induction parts with
  | nil =>
    intro ctx _
    simp only [List.foldl_nil, List.flatten_nil]
    exact (digestOf_feed_nil ctx).symm
  | cons p rest ih =>
    intro ctx hyp
    match rest with
    | [] => simp
    | q :: rs =>
      have hp : p.length % 64 = 0 ∧ p ≠ [] := by
        refine hyp p ?_
        rw [List.dropLast_cons₂]
        exact List.mem_cons_self p _
      have hrest : ∀ r ∈ (q :: rs).dropLast, r.length % 64 = 0 ∧ r ≠ [] := by
        intro r hr
        refine hyp r ?_
        rw [List.dropLast_cons₂]
        exact List.mem_cons_of_mem p hr
      rw [List.foldl_cons, ih (md4_feed ctx p) hrest]
      by_cases hj : (q :: rs).flatten = []
      · rw [hj, digestOf_feed_nil (md4_feed ctx p),
          show (p :: q :: rs).flatten = p by simp [hj]]
      · rw [md4_feed_append p ((q :: rs).flatten) ctx hp.1 hp.2 hj]
        rfl

theorem md4_digest_small (M : List Nat) (hM : M.length ≤ 64) :
    md4_digest M = digestOf (MD4Update MD4InitCtx (asFn M) (8 * M.length)) := by
  unfold md4_digest
  rw [md4_feed_small _ _ hM]

/-- C1: the full create/feed/finish pipeline reproduces the RFC 1320 test
vectors for the empty string, `"abc"` and `"message digest"` (lowercase hex
renderings), and a zero-bit feed on the fresh, unfinished context triggers
full padding/finalization (its `done` flag becomes true). -/
theorem md4_known_vectors :
    toHex (md4_digest []) = "31d6cfe0d16ae931b73c59d7e0c089c0" ∧
    toHex (md4_digest [97, 98, 99]) = "a448017aaf21d8525fc10ae87aa6729d" ∧
    toHex (md4_digest [109, 101, 115, 115, 97, 103, 101, 32, 100, 105,
      103, 101, 115, 116]) = "d9130a8164549fe818874806e1c7014b" ∧
    MD4InitCtx.done = false ∧
    (MD4Update MD4InitCtx (fun _ => 0) 0).done = true := by
  refine ⟨?_, ?_, ?_, by decide, by decide⟩
  · rw [md4_digest_small [] (by norm_num)]
    decide
  · rw [md4_digest_small [97, 98, 99] (by norm_num)]
    decide
  · rw [md4_digest_small _ (by norm_num)]
    decide

/-- C2 counterexample: partitioning the two-byte message `[97, 98]` into
the single-byte feeds `[97]`, `[98]` yields a different digest than
feeding it in one call — the first one-byte feed is a terminal call that
finalizes the context, so the claim fails for arbitrary split points. -/
theorem chunk_invariance_counterexample :
    digestOf (([[97], [98]] : List (List Nat)).foldl md4_feed MD4InitCtx) ≠
      digestOf (md4_feed MD4InitCtx [97, 98]) := by
  rw [List.foldl_cons, List.foldl_cons, List.foldl_nil,
    md4_feed_small MD4InitCtx [97] (by norm_num),
    md4_feed_small _ [98] (by norm_num),
    md4_feed_small MD4InitCtx [97, 98] (by norm_num)]
  decide

/-- C2 (amended): the digest is invariant under partitioning the message
into adapter feed calls provided every part except the last is a nonempty
multiple of 64 bytes (any partition violating this makes some non-final
internal feed terminal, finalizing the context early). -/
theorem chunk_invariance_amended (parts : List (List Nat))
    (hparts : ∀ p ∈ parts.dropLast, p.length % 64 = 0 ∧ p ≠ []) :
    digestOf (parts.foldl md4_feed MD4InitCtx) =
      digestOf (md4_feed MD4InitCtx parts.flatten) :=
  chunk_invariance_aux parts MD4InitCtx hparts

theorem chunk_invariance_amended_witness :
    (∀ p ∈ ([List.replicate 64 7, [1, 2, 3]] : List (List Nat)).dropLast,
        p.length % 64 = 0 ∧ p ≠ []) ∧
    digestOf (([List.replicate 64 7, [1, 2, 3]] : List (List Nat)).foldl
        md4_feed MD4InitCtx) =
      digestOf (md4_feed MD4InitCtx
        ([List.replicate 64 7, [1, 2, 3]] : List (List Nat)).flatten) :=
  ⟨by decide, chunk_invariance_amended _ (by decide)⟩

/-- C3: the block transform is a pure function of the state and one
64-byte block, computing exactly the three rounds the spec describes:
little-endian word assembly, the selection functions `f`, `g`, `h` with
round constants 0, `C2` (`0o13240474631`), `C3` (`0o15666365641`), the
spec's rotate-amount and message-word schedules, working-variable rotation
each step, and the final modulo-2^32 state addition. -/
theorem block_transform_matches_spec :
    (∀ (Xb : Nat → Nat) (j : Nat), MDword Xb j = wordLE Xb j) ∧
    (∀ (ctx : MD4_CTX) (Xb : Nat → Nat), MDblockCtx ctx Xb = MDblockSpec ctx Xb) :=
  ⟨MDword_eq_wordLE, MDblockCtx_eq_spec⟩

/-- C5: `MD4Final` first issues the zero-bit terminal feed (after which
the context is finished), then serializes the four state words
least-significant byte first in word order; it always yields exactly 16
bytes, and the adapter `md4_final` always returns success (1). -/
theorem digest_extraction_spec :
    ∀ ctx : MD4_CTX,
      (md4_final ctx).2 = 1 ∧
      (MD4Final ctx).2 = MD4Update ctx (fun _ => 0) 0 ∧
      (MD4Final ctx).1 =
        leBytes 4 (MD4Update ctx (fun _ => 0) 0).buffer0 ++
          leBytes 4 (MD4Update ctx (fun _ => 0) 0).buffer1 ++
          leBytes 4 (MD4Update ctx (fun _ => 0) 0).buffer2 ++
          leBytes 4 (MD4Update ctx (fun _ => 0) 0).buffer3 ∧
      (MD4Final ctx).1.length = 16 ∧
      (MD4Final ctx).2.done = true := by
  intro ctx
  refine ⟨rfl, rfl, rfl, ?_, MD4UpdateS_zero_done _ _ ctx⟩
  show (word4LE _ ++ word4LE _ ++ word4LE _ ++ word4LE _).length = 16
  simp [word4LE]

set_option maxRecDepth 8000 in
/-- C4: every internal feed call of fewer than 512 bits is terminal: the
context is marked finished, the bit count is accumulated, and the state is
updated by compressing the spec-described padded block — with the 8-byte
bit count at offset 56 of that block when the boundary byte index is at
most 55, and otherwise by compressing that block followed by a second
all-zero block carrying the bit count; consequently the 55-, 56- and
57-byte messages agree with the direct reference computation `refDigest`
across the one-block/two-block padding boundary. -/
theorem terminal_feed_spec :
    (∀ (s X : Nat → Nat) (ctx : MD4_CTX) (c : Nat), ctx.done = false →
      c < 512 →
      (MD4UpdateS s ctx X c).done = true ∧
      (MD4UpdateS s ctx X c).count = addCarry c ctx.count ∧
      MD4UpdateS s ctx X c =
        (if c / 8 ≤ 55 then
          { MDblockCtx { ctx with count := addCarry c ctx.count }
              (specPadBlockWithCount s X c (addCarry c ctx.count)) with
            done := true }
        else
          { MDblockCtx
              (MDblockCtx { ctx with count := addCarry c ctx.count }
                (specPadBlock s X c))
              (specCountBlock (addCarry c ctx.count)) with
            done := true })) ∧
    md4_digest (List.range 55) = refDigest (List.range 55) ∧
    md4_digest (List.range 56) = refDigest (List.range 56) ∧
    md4_digest (List.range 57) = refDigest (List.range 57) := by
  refine ⟨fun s X ctx c hd hc => ⟨?_, ?_, MD4UpdateS_terminal s X ctx c hd hc⟩,
    ?_, ?_, ?_⟩
  · rw [MD4UpdateS_terminal s X ctx c hd hc]
    split_ifs <;> rfl
  · rw [MD4UpdateS_terminal s X ctx c hd hc]
    split_ifs
    · rw [MDblockCtx_count]
    · rw [MDblockCtx_count, MDblockCtx_count]
  · rw [md4_digest_small _ (by simp)]
    decide
  · rw [md4_digest_small _ (by simp)]
    decide
  · rw [md4_digest_small _ (by simp)]
    decide

theorem terminal_feed_spec_witness :
    MD4InitCtx.done = false ∧ (24 : Nat) < 512 ∧
    ((MD4UpdateS (fun _ => 0) MD4InitCtx (fun _ => 97) 24).done = true ∧
      (MD4UpdateS (fun _ => 0) MD4InitCtx (fun _ => 97) 24).count =
        addCarry 24 MD4InitCtx.count ∧
      MD4UpdateS (fun _ => 0) MD4InitCtx (fun _ => 97) 24 =
        (if 24 / 8 ≤ 55 then
          { MDblockCtx { MD4InitCtx with count := addCarry 24 MD4InitCtx.count }
              (specPadBlockWithCount (fun _ => 0) (fun _ => 97) 24
                (addCarry 24 MD4InitCtx.count)) with
            done := true }
        else
          { MDblockCtx
              (MDblockCtx
                { MD4InitCtx with count := addCarry 24 MD4InitCtx.count }
                (specPadBlock (fun _ => 0) (fun _ => 97) 24))
              (specCountBlock (addCarry 24 MD4InitCtx.count)) with
            done := true })) :=
  ⟨by decide, by decide,
    terminal_feed_spec.1 (fun _ => 0) (fun _ => 97) MD4InitCtx 24
      (by decide) (by decide)⟩

/-- C6 counterexample: an oversized internal feed call (520 bits) on a
fresh context leaves the state words and finished flag alone but does
not leave the whole context unchanged — the bit counter has already been
incremented before the size check. -/
theorem oversized_feed_counterexample :
    (MD4UpdateS (fun _ => 0) MD4InitCtx (fun _ => 0) 520).count ≠
      MD4InitCtx.count ∧
    MD4UpdateS (fun _ => 0) MD4InitCtx (fun _ => 0) 520 ≠ MD4InitCtx := by
  decide

/-- C6 (amended): an internal feed call with more than 512 bits is
rejected — the data is never processed, a diagnostic is logged (the C
function returns `void`, so no error result reaches the caller) — and the
state words and finished flag are unchanged; but before the size check
the bit counter has already been run through the 32-bit
carry-accumulation loop with the rejected call's bit count, which for
rejected counts below 2^32 − 255 adds exactly the call's bit count to the
little-endian counter (for larger representable counts the 32-bit
accumulator can wrap and lose a carry). -/
theorem oversized_feed_rejected :
    ∀ (s X : Nat → Nat) (ctx : MD4_CTX) (c : Nat), ctx.done = false →
      c > 512 →
      MD4UpdateS s ctx X c = { ctx with count := addCarry c ctx.count } ∧
      (MD4UpdateS s ctx X c).done = ctx.done ∧
      (MD4UpdateS s ctx X c).buffer0 = ctx.buffer0 ∧
      MD4UpdateLogsError ctx c = true ∧
      (c < 4294967041 → (∀ b ∈ ctx.count, b < 256) →
        leVal (MD4UpdateS s ctx X c).count =
          (c + leVal ctx.count) % 256 ^ ctx.count.length) := by
  intro s X ctx c hd hc
  refine ⟨MD4UpdateS_over s X ctx c hd hc, ?_, ?_, ?_, ?_⟩
  · rw [MD4UpdateS_over s X ctx c hd hc]
  · rw [MD4UpdateS_over s X ctx c hd hc]
  · unfold MD4UpdateLogsError
    rw [if_neg (by simp [hd]), if_neg (by simp [hd]),
      if_neg (by omega : ¬c = 512), if_pos hc]
  · intro hlt hbb
    rw [MD4UpdateS_over s X ctx c hd hc]
    exact leVal_addCarry ctx.count c hbb hlt

theorem oversized_feed_rejected_witness :
    MD4InitCtx.done = false ∧ (520 : Nat) > 512 ∧
    (MD4UpdateS (fun _ => 0) MD4InitCtx (fun _ => 0) 520 =
        { MD4InitCtx with count := addCarry 520 MD4InitCtx.count } ∧
      (MD4UpdateS (fun _ => 0) MD4InitCtx (fun _ => 0) 520).done =
        MD4InitCtx.done ∧
      (MD4UpdateS (fun _ => 0) MD4InitCtx (fun _ => 0) 520).buffer0 =
        MD4InitCtx.buffer0 ∧
      MD4UpdateLogsError MD4InitCtx 520 = true) ∧
    leVal (MD4UpdateS (fun _ => 0) MD4InitCtx (fun _ => 0) 520).count =
      (520 + leVal MD4InitCtx.count) % 256 ^ MD4InitCtx.count.length := by
  have hmain := oversized_feed_rejected (fun _ => 0) (fun _ => 0) MD4InitCtx
    520 (by decide) (by decide)
  exact ⟨by decide, by decide,
    ⟨hmain.1, hmain.2.1, hmain.2.2.1, hmain.2.2.2.1⟩,
    hmain.2.2.2.2 (by decide) (by decide)⟩

/-- C7 counterexample: feeding nonzero data after finish is only logged,
not surfaced: the adapter `md4_update` returns the same success code 1 it
returns for a legal call, while `MD4Update` merely prints a diagnostic. -/
theorem feed_after_finish_counterexample :
    (md4_update (MD4Update MD4InitCtx (fun _ => 0) 0) (fun _ => 97) 1).2 = 1 ∧
    (md4_update MD4InitCtx (fun _ => 97) 1).2 = 1 ∧
    MD4UpdateLogsError (MD4Update MD4InitCtx (fun _ => 0) 0) 8 = true := by
  refine ⟨rfl, rfl, ?_⟩
  decide

/-- C7 (amended): a nonzero-bit feed call on a finished context does not
corrupt the context (state words, bit count and finished flag are all
unchanged — the call returns the context as is) and a diagnostic is
logged, but the error is not surfaced as an error result: the adapter
returns the success code 1 regardless. -/
theorem feed_after_finish_state :
    ∀ (s X : Nat → Nat) (ctx : MD4_CTX) (c : Nat) (len : Nat),
      ctx.done = true → c ≠ 0 →
      MD4UpdateS s ctx X c = ctx ∧
      MD4UpdateLogsError ctx c = true ∧
      (md4_update ctx X len).2 = 1 := by
  intro s X ctx c len hd hc
  refine ⟨MD4UpdateS_of_done s X ctx c hd, ?_, rfl⟩
  unfold MD4UpdateLogsError
  rw [if_neg (by simp [hc]), if_pos hd]

theorem feed_after_finish_state_witness :
    (MD4Update MD4InitCtx (fun _ => 0) 0).done = true ∧ (8 : Nat) ≠ 0 ∧
    (MD4UpdateS (fun _ => 0) (MD4Update MD4InitCtx (fun _ => 0) 0)
        (fun _ => 97) 8 = MD4Update MD4InitCtx (fun _ => 0) 0 ∧
      MD4UpdateLogsError (MD4Update MD4InitCtx (fun _ => 0) 0) 8 = true ∧
      (md4_update (MD4Update MD4InitCtx (fun _ => 0) 0) (fun _ => 97) 1).2 =
        1) :=
  ⟨by decide, by decide,
    feed_after_finish_state (fun _ => 0) (fun _ => 97)
      (MD4Update MD4InitCtx (fun _ => 0) 0) 8 1 (by decide) (by decide)⟩

/-- C8: any feed call on a finished context with bit count 0 is a no-op
(in fact any call on a finished context returns it unchanged, so the
digest bytes derived from the state never change once finished), and
calling finish twice returns the same 16-byte digest both times. -/
theorem finalize_idempotent :
    (∀ (s X : Nat → Nat) (ctx : MD4_CTX), ctx.done = true →
        MD4UpdateS s ctx X 0 = ctx) ∧
    (∀ (s X : Nat → Nat) (ctx : MD4_CTX) (c : Nat), ctx.done = true →
        MD4UpdateS s ctx X c = ctx) ∧
    (∀ ctx : MD4_CTX, (MD4Final (MD4Final ctx).2).1 = (MD4Final ctx).1) := by
  refine ⟨fun s X ctx hd => MD4UpdateS_of_done s X ctx 0 hd,
    fun s X ctx c hd => MD4UpdateS_of_done s X ctx c hd, fun ctx => ?_⟩
  show (MD4Final (MD4Update ctx (fun _ => 0) 0)).1 = (MD4Final ctx).1
  unfold MD4Final
  rw [show MD4Update (MD4Update ctx (fun _ => 0) 0) (fun _ => 0) 0 =
      MD4Update ctx (fun _ => 0) 0 from
    MD4Update_zero_idem (fun _ => 0) (fun _ => 0) (fun _ => 0) ctx]

theorem finalize_idempotent_witness :
    (MD4Update MD4InitCtx (fun _ => 0) 0).done = true ∧
    MD4UpdateS (fun _ => 0) (MD4Update MD4InitCtx (fun _ => 0) 0)
        (fun _ => 3) 0 = MD4Update MD4InitCtx (fun _ => 0) 0 ∧
    MD4UpdateS (fun _ => 0) (MD4Update MD4InitCtx (fun _ => 0) 0)
        (fun _ => 3) 512 = MD4Update MD4InitCtx (fun _ => 0) 0 ∧
    (MD4Final (MD4Final MD4InitCtx).2).1 = (MD4Final MD4InitCtx).1 :=
  ⟨by decide,
    finalize_idempotent.1 (fun _ => 0) (fun _ => 3) _ (by decide),
    finalize_idempotent.2.1 (fun _ => 0) (fun _ => 3) _ 512 (by decide),
    finalize_idempotent.2.2 MD4InitCtx⟩

set_option maxRecDepth 8000 in
theorem mask_byte_128 :
    ∀ x : Nat, x < 256 →
      ((x ||| 128) &&& ((4294967295 : Nat) ^^^ 127)) % 256 = 128 := by
  decide

/-- C10: a zero-bit feed on an unfinished context never reads the
supplied data buffer (the result does not depend on `X`, so the NULL
pointer `MD4Final` passes is never dereferenced), and the block it
compresses is fully determined no matter what the uninitialized scratch
buffer holds: byte 0 is exactly `0x80`, bytes 1–55 are zero, and the bit
count occupies bytes 56–63. -/
theorem zero_feed_padded_block :
    ∀ (s X Y : Nat → Nat) (ctx : MD4_CTX), ctx.done = false →
      (∀ i, i < 64 → s i < 256) →
      MD4UpdateS s ctx X 0 =
        { MDblockCtx ctx (emptyPadBlock ctx.count) with done := true } ∧
      MD4UpdateS s ctx X 0 = MD4UpdateS s ctx Y 0 := by
  intro s X Y ctx hd hs
  refine ⟨?_, MD4UpdateS_zero_irrel s ctx X Y⟩
  rw [MD4UpdateS_terminal s X ctx 0 hd (by omega),
    if_pos (by norm_num : (0 : Nat) / 8 ≤ 55), addCarry_zero,
    show ({ ctx with count := ctx.count } : MD4_CTX) = ctx from rfl]
  rw [MDblockCtx_congr ctx (specPadBlockWithCount s X 0 ctx.count)
    (emptyPadBlock ctx.count) ?_]
  intro i hi
  unfold specPadBlockWithCount specPadBlock emptyPadBlock
  by_cases h56 : 56 ≤ i ∧ i < 64
  · rw [if_pos h56, if_neg (by omega : ¬i = 0), if_neg (by omega : ¬i < 56),
      if_pos hi]
  · by_cases h0 : i = 0
    · subst h0
      have hx := mask_byte_128 (s 0) (hs 0 (by omega))
      simp only [if_neg h56]
      norm_num at hx ⊢
      exact hx
    · rw [if_neg h56, if_pos hi, if_neg (by omega : ¬i < 0 / 8),
        if_neg (show ¬i = 0 / 8 by omega), if_neg h0,
        if_pos (by omega : i < 56)]

theorem zero_feed_padded_block_witness :
    MD4InitCtx.done = false ∧ (∀ i, i < 64 → (fun _ => (5 : Nat)) i < 256) ∧
    (MD4UpdateS (fun _ => 5) MD4InitCtx (fun _ => 9) 0 =
        { MDblockCtx MD4InitCtx (emptyPadBlock MD4InitCtx.count) with
          done := true } ∧
      MD4UpdateS (fun _ => 5) MD4InitCtx (fun _ => 9) 0 =
        MD4UpdateS (fun _ => 5) MD4InitCtx (fun _ => 3) 0) :=
  ⟨by decide, fun i _ => by norm_num,
    zero_feed_padded_block (fun _ => 5) (fun _ => 9) (fun _ => 3) MD4InitCtx
      (by decide) (fun i _ => (by norm_num : (5 : Nat) < 256))⟩

theorem MD4UpdateS_count_not_done (s X : Nat → Nat) (ctx : MD4_CTX)
    (c : Nat) (hd : ctx.done = false) :
    (MD4UpdateS s ctx X c).count = addCarry c ctx.count := by
  rcases Nat.lt_trichotomy c 512 with hc | hc | hc
  · rw [MD4UpdateS_terminal s X ctx c hd hc]
    split_ifs
    · rw [MDblockCtx_count]
    · rw [MDblockCtx_count, MDblockCtx_count]
  · subst hc
    rw [MD4UpdateS_full s X ctx hd, MDblockCtx_count]
  · rw [MD4UpdateS_over s X ctx c hd hc]

theorem acceptedRun_count :
    ∀ (calls : List ((Nat → Nat) × Nat)) (ctx : MD4_CTX),
      (∀ b ∈ ctx.count, b < 256) → acceptedRun ctx calls →
      (runCalls ctx calls).count.length = ctx.count.length ∧
      leVal (runCalls ctx calls).count =
        (sumBits calls + leVal ctx.count) % 256 ^ ctx.count.length := by
  intro calls
  induction calls with
  | nil =>
    intro ctx hb _
    refine ⟨rfl, ?_⟩
    show leVal ctx.count = (sumBits [] + leVal ctx.count) % _
    simp only [sumBits, List.map_nil, List.sum_nil, Nat.zero_add]
    exact (Nat.mod_eq_of_lt (leVal_lt ctx.count hb)).symm
  | cons pr rest ih =>
    intro ctx hb hacc
    obtain ⟨⟨hc512, hnot⟩, hrest⟩ := hacc
    have hrun : runCalls ctx (pr :: rest) =
        runCalls (MD4Update ctx pr.1 pr.2) rest := rfl
    have hsum : sumBits (pr :: rest) = pr.2 + sumBits rest := by
      simp [sumBits]
    cases hd : ctx.done
    · have hcount : (MD4Update ctx pr.1 pr.2).count =
          addCarry pr.2 ctx.count :=
        MD4UpdateS_count_not_done _ _ ctx pr.2 hd
      have hb' : ∀ b ∈ (MD4Update ctx pr.1 pr.2).count, b < 256 := by
        rw [hcount]
        exact addCarry_bytes ctx.count pr.2 hb
      obtain ⟨ihlen, ihval⟩ := ih (MD4Update ctx pr.1 pr.2) hb' hrest
      have hlen2 : (MD4Update ctx pr.1 pr.2).count.length =
          ctx.count.length := by
        rw [hcount, addCarry_length]
      refine ⟨by rw [hrun, ihlen, hlen2], ?_⟩
      rw [hrun, ihval, hlen2, hcount,
        leVal_addCarry ctx.count pr.2 hb (by omega),
        Nat.add_mod_mod, hsum]
      congr 1
      omega
    · have hzero : pr.2 = 0 := by
        by_contra hne
        exact hnot ⟨hd, hne⟩
      have hctx : MD4Update ctx pr.1 pr.2 = ctx := by
        rw [hzero]
        exact MD4UpdateS_of_done _ _ ctx 0 hd
      obtain ⟨ihlen, ihval⟩ := ih (MD4Update ctx pr.1 pr.2)
        (by rw [hctx]; exact hb) hrest
      refine ⟨by rw [hrun, ihlen, hctx], ?_⟩
      rw [hrun, ihval, hctx, hsum, hzero]
      congr 1
      omega

/-- C9: creation initializes the 8-byte count to zero, and after any
sequence of accepted feed calls the count field, read as a little-endian
integer, equals exactly the total number of bits passed (each call adds
its bit count with carry propagation across the 8 bytes), for totals below
2^64. -/
theorem bit_count_exact :
    ∀ calls : List ((Nat → Nat) × Nat), acceptedRun MD4InitCtx calls →
      sumBits calls < 2 ^ 64 →
      leVal MD4InitCtx.count = 0 ∧
      leVal (runCalls MD4InitCtx calls).count = sumBits calls := by
  intro calls hacc hlt
  refine ⟨by decide, ?_⟩
  obtain ⟨_, hval⟩ := acceptedRun_count calls MD4InitCtx (by decide) hacc
  rw [hval, show leVal MD4InitCtx.count = 0 from by decide, Nat.add_zero,
    show (256 : Nat) ^ MD4InitCtx.count.length = 2 ^ 64 from by decide]
  exact Nat.mod_eq_of_lt hlt

theorem bit_count_exact_witness :
    acceptedRun MD4InitCtx
      [((fun _ => 0 : Nat → Nat), 512), ((fun _ => 0 : Nat → Nat), 16)] ∧
    sumBits [((fun _ => 0 : Nat → Nat), 512),
      ((fun _ => 0 : Nat → Nat), 16)] < 2 ^ 64 ∧
    (leVal MD4InitCtx.count = 0 ∧
      leVal (runCalls MD4InitCtx
        [((fun _ => 0 : Nat → Nat), 512),
          ((fun _ => 0 : Nat → Nat), 16)]).count =
        sumBits [((fun _ => 0 : Nat → Nat), 512),
          ((fun _ => 0 : Nat → Nat), 16)]) :=
  ⟨by decide, by decide, bit_count_exact _ (by decide) (by decide)⟩

end PPPMD4

